import Mathlib

/-!
Verification of the layered per-key RGB effect compositor
(`razer_control_gui/service/src/effects.rs`).

Shallow embedding conventions:
* `u128` wall-clock milliseconds become `Nat`; the source's `u128`
  subtraction is modelled by `wsub`, wrapping subtraction modulo `2 ^ 128`.
* `u8` channel values and mask entries become `Nat`, reduced `% 256` at
  every point the source performs an `as u8` cast or stores into a `u8`.
* `f32` arithmetic in the Blend and Breath effects is modelled by exact
  rational arithmetic (`ℚ`); the Rust saturating `f32 as u8` cast is
  modelled by `satCast`.
* Wall-clock sampling (`EffectManager::get_millis`) becomes an explicit
  `now : Nat` argument threaded into each operation that samples the clock.
* `Vec<T>` becomes `List T` with `Vec::push` = `List.concat`,
  `Vec::pop` = `List.dropLast`, `Vec::last()` = `List.getLast?`.
* A Rust panic (out-of-bounds `Vec` index inside `update`) is modelled by
  `Option`: `EffectManager.update` returns `none` exactly where the source
  would panic, and `some (state, rendered)` otherwise, where `rendered`
  lists the buffers pushed through the render sink during the call.
-/

/-- Frame interval: `ANIMATIONS_DELAY_MS : u128 = 33` from the source. -/
def ANIMATIONS_DELAY_MS : Nat := 33

/-- Modulus of the Rust `u128` type. -/
def U128 : Nat := 2 ^ 128

/-- Wrapping `u128` subtraction `a - b` (release-mode Rust semantics),
for `a b : Nat` understood modulo `2 ^ 128`. -/
def wsub (a b : Nat) : Nat := (a % U128 + (U128 - b % U128)) % U128

/-- One RGB triple; each channel is a `u8` value (kept `< 256` by the
operations that write it). -/
structure RGB where
  red : Nat
  green : Nat
  blue : Nat
deriving DecidableEq, Repr

/-- Modelled from the spec: `rgb::KeyboardData` (not under `src/`) is a
fixed array of 90 per-key RGB triples; rows are the 6 blocks of 15
consecutive indices and columns the 15 residues mod 15 (6×15 = 90,
spec section 3 and section 6). -/
def KeyboardData : Type := Fin 90 → RGB

/-- Modelled from the spec: the Rust saturating `f32 as u8` cast —
truncation toward zero clamped into `[0, 255]` (negative values clamp
to `0` via `Int.toNat`). -/
def satCast (q : ℚ) : Nat := min 255 (Int.toNat ⌊q⌋)

namespace KeyboardData

/-- Modelled from the spec: `KeyboardData::new()` gives every key an
implementation-defined default colour; we pick black. No claim depends
on the default, since every effect overwrites all 90 keys. -/
def new : KeyboardData := fun _ => ⟨0, 0, 0⟩

/-- Modelled from the spec: single-key write `set_key_at(index, colour)`. -/
def set_key_at (k : KeyboardData) (i : Fin 90) (c : RGB) : KeyboardData :=
  Function.update k i c

/-- Modelled from the spec: single-key read `get_key_at(index)`. -/
def get_key_at (k : KeyboardData) (i : Fin 90) : RGB := k i

/-- Modelled from the spec: `set_kbd_colour(r, g, b)` sets all 90 keys to
one colour (channels are `u8`, hence the `% 256`). -/
def set_kbd_colour (_k : KeyboardData) (r g b : Nat) : KeyboardData :=
  fun _ => ⟨r % 256, g % 256, b % 256⟩

/-- Modelled from the spec: `set_row_colour(row, r, g, b)` sets the 15 keys
of one of the 6 rows; key `i` lies in row `i / 15`. -/
def set_row_colour (k : KeyboardData) (row r g b : Nat) : KeyboardData :=
  fun i => if (i : Nat) / 15 = row then ⟨r % 256, g % 256, b % 256⟩ else k i

/-- Modelled from the spec: `set_col_colour(col, r, g, b)` sets the 6 keys
of one of the 15 columns; key `i` lies in column `i % 15`. -/
def set_col_colour (k : KeyboardData) (col r g b : Nat) : KeyboardData :=
  fun i => if (i : Nat) % 15 = col then ⟨r % 256, g % 256, b % 256⟩ else k i

end KeyboardData

/-- The `EffectDir` enum from the source. -/
inductive EffectDir where
  | Vertical
  | Horizontal
  | Diagonal
  | Circular

/-- Internal state of `BreathEffect` from the source; `f32` fields are
modelled as `ℚ`, `u128` time fields as `Nat`, `curr_step : u8` as `Nat`. -/
structure BreathState where
  kbd : KeyboardData
  step_duration_ms : Nat
  step_start_ms : Nat
  curr_step : Nat
  targ_red : ℚ
  targ_green : ℚ
  targ_blue : ℚ
  curr_red : ℚ
  curr_green : ℚ
  curr_blue : ℚ

/-- The closed set of `Effect` trait implementors from the source:
`StaticEffect`, `BlendEffect` (both a single precomputed buffer) and
`BreathEffect`. -/
inductive Effect where
  | staticE (kbd : KeyboardData)
  | blendE (kbd : KeyboardData)
  | breathE (s : BreathState)

/-- `StaticEffect::new(red, green, blue)`: a fresh buffer with all keys set
to the one colour. -/
def StaticEffect.new (red green blue : Nat) : KeyboardData :=
  KeyboardData.new.set_kbd_colour red green blue

/-- Body of the `EffectDir::Vertical` arm of `BlendEffect::new`: rows
`0..6`, row `x` blended at ratio `(x+1)/6` from colour 1 toward colour 2. -/
def BlendEffect.vertical (r1 g1 b1 r2 g2 b2 : Nat) : KeyboardData :=
  (List.range 6).foldl
    (fun k x =>
      k.set_row_colour x
        (satCast ((r1 : ℚ) + ((r2 : ℚ) - (r1 : ℚ)) * (((x : ℚ) + 1) / 6)))
        (satCast ((g1 : ℚ) + ((g2 : ℚ) - (g1 : ℚ)) * (((x : ℚ) + 1) / 6)))
        (satCast ((b1 : ℚ) + ((b2 : ℚ) - (b1 : ℚ)) * (((x : ℚ) + 1) / 6))))
    KeyboardData.new

/-- Body of the `EffectDir::Horizontal` arm of `BlendEffect::new`: columns
`0..15`, column `x` blended at ratio `(x+1)/15`. -/
def BlendEffect.horizontal (r1 g1 b1 r2 g2 b2 : Nat) : KeyboardData :=
  (List.range 15).foldl
    (fun k x =>
      k.set_col_colour x
        (satCast ((r1 : ℚ) + ((r2 : ℚ) - (r1 : ℚ)) * (((x : ℚ) + 1) / 15)))
        (satCast ((g1 : ℚ) + ((g2 : ℚ) - (g1 : ℚ)) * (((x : ℚ) + 1) / 15)))
        (satCast ((b1 : ℚ) + ((b2 : ℚ) - (b1 : ℚ)) * (((x : ℚ) + 1) / 15))))
    KeyboardData.new

/-- `BlendEffect::new(r1, g1, b1, r2, g2, b2, dir)`: the precomputed
gradient buffer; `Diagonal`/`Circular` fall back to `Vertical` (the source
recurses after printing a warning). -/
def BlendEffect.new (r1 g1 b1 r2 g2 b2 : Nat) : EffectDir → KeyboardData
  | EffectDir.Vertical => BlendEffect.vertical r1 g1 b1 r2 g2 b2
  | EffectDir.Horizontal => BlendEffect.horizontal r1 g1 b1 r2 g2 b2
  | EffectDir.Diagonal => BlendEffect.vertical r1 g1 b1 r2 g2 b2
  | EffectDir.Circular => BlendEffect.vertical r1 g1 b1 r2 g2 b2

/-- `BreathEffect::new(red, green, blue, cycle_duration_ms)`; `now` is the
`get_millis()` sample taken at construction for `step_start_ms`. -/
def BreathEffect.new (red green blue cycle_duration_ms now : Nat) : BreathState :=
  { kbd := KeyboardData.new.set_kbd_colour 0 0 0
    step_duration_ms := cycle_duration_ms
    step_start_ms := now
    curr_step := 0
    targ_red := (red : ℚ)
    targ_green := (green : ℚ)
    targ_blue := (blue : ℚ)
    curr_red := 0
    curr_green := 0
    curr_blue := 0 }

/-- `<BreathEffect as Effect>::update`: advance the phase when
`get_millis() - step_duration_ms >= step_duration_ms` (as written in the
source — the left side subtracts the cycle duration, not `step_start_ms`),
then move the accumulators one step in phase 1/3, then write the truncated
accumulators to all keys. -/
def BreathEffect.update (s : BreathState) (now : Nat) : BreathState :=
  let s1 :=
    if s.step_duration_ms ≤ wsub now s.step_duration_ms then
      let c := (s.curr_step + 1) % 256
      { s with curr_step := if c = 4 then 0 else c }
    else s
  let step_red := s1.targ_red / ((s1.step_duration_ms : ℚ) / (ANIMATIONS_DELAY_MS : ℚ))
  let step_green := s1.targ_green / ((s1.step_duration_ms : ℚ) / (ANIMATIONS_DELAY_MS : ℚ))
  let step_blue := s1.targ_blue / ((s1.step_duration_ms : ℚ) / (ANIMATIONS_DELAY_MS : ℚ))
  let s2 :=
    if s1.curr_step = 1 then
      { s1 with curr_red := s1.curr_red + step_red
                curr_green := s1.curr_green + step_green
                curr_blue := s1.curr_blue + step_blue }
    else if s1.curr_step = 3 then
      { s1 with curr_red := s1.curr_red - step_red
                curr_green := s1.curr_green - step_green
                curr_blue := s1.curr_blue - step_blue }
    else s1
  { s2 with kbd := s2.kbd.set_kbd_colour (satCast s2.curr_red) (satCast s2.curr_green) (satCast s2.curr_blue) }

/-- The `Effect` trait's `update(&mut self) -> KeyboardData`: result is the
effect's post-call state paired with the frame it returned. `StaticEffect`
and `BlendEffect` return their precomputed buffer unchanged. -/
def Effect.update : Effect → Nat → Effect × KeyboardData
  | Effect.staticE kbd, _ => (Effect.staticE kbd, kbd)
  | Effect.blendE kbd, _ => (Effect.blendE kbd, kbd)
  | Effect.breathE s, now =>
      let s1 := BreathEffect.update s now
      (Effect.breathE s1, s1.kbd)

/-- A layer mask: one `u8` stack index per key (`[u8; 90]` in the source). -/
def LayerMask : Type := Fin 90 → Nat

/-- The `EffectManager` struct from the source. -/
structure EffectManager where
  layerHistory : List LayerMask
  effects : List Effect
  lastUpdateTime : Nat
  combined : KeyboardData

namespace EffectManager

/-- `EffectManager::new()`; `now` is the construction-time `get_millis()`
sample stored into `lastUpdateTime`. -/
def new (now : Nat) : EffectManager :=
  { layerHistory := []
    effects := []
    lastUpdateTime := now
    combined := KeyboardData.new }

/-- `EffectManager::get_effect_layer_count()`. -/
def get_effect_layer_count (m : EffectManager) : Nat := m.effects.length

/-- The merge loop of `EffectManager::update`: for each of the 90 keys,
copy that key's colour from candidate frame `keyboards[mask key]` into the
combined buffer; `none` models the panic when `mask key` is out of bounds
(`keyboards[*layer_index as usize]` in the source). -/
def mergeFold (mask : LayerMask) (keyboards : List KeyboardData) (c0 : KeyboardData) :
    Option KeyboardData :=
  (List.finRange 90).foldl
    (fun acc k =>
      acc.bind fun c =>
        (keyboards[mask k]?).map fun kbd =>
          c.set_key_at k (kbd.get_key_at k))
    (some c0)

/-- `EffectManager::update(&mut self, handler)`. Returns `none` exactly
where the source would panic; otherwise `some (state, rendered)`, with
`rendered` the list of buffers pushed through the render sink (`[]` for
the two silent no-op paths). The source samples `get_millis()` for the
gate and again for the new `lastUpdateTime`; both samples are the single
`now` argument. The `match` on `getLast?` embeds the source's
`len() == 0` early return followed by `last().unwrap()`. -/
def update (m : EffectManager) (now : Nat) : Option (EffectManager × List KeyboardData) :=
  if ANIMATIONS_DELAY_MS ≤ wsub now m.lastUpdateTime then
    match m.layerHistory.getLast? with
    | none => some (m, [])
    | some mask =>
        let results := m.effects.map (fun e => Effect.update e now)
        let keyboards := results.map Prod.snd
        match mergeFold mask keyboards m.combined with
        | none => none
        | some combined2 =>
            some ({ m with effects := results.map Prod.fst
                           combined := combined2
                           lastUpdateTime := now }, [combined2])
  else some (m, [])

/-- `EffectManager::push_effect(new_effect, enabled_keys)`. The source
pushes the effect, then either pushes an all-zero mask (no previous
layers) or pushes a copy of the previous top mask and rewrites, in entry
`new_layer_id` of the history, every enabled key's owner to
`new_layer_id as u8`. The per-key loop only ever touches that one entry,
so it is embedded as a fold producing the entry followed by `List.set`
(`List.set` leaves the list unchanged when the index is out of range,
which only happens in states violating the parallel-stack invariant). -/
def push_effect (m : EffectManager) (newEffect : Effect) (enabled_keys : Fin 90 → Bool) :
    EffectManager :=
  let effects2 := m.effects.concat newEffect
  if m.layerHistory.length = 0 then
    { m with effects := effects2, layerHistory := m.layerHistory.concat (fun _ => 0) }
  else
    let new_layer_id := effects2.length - 1
    let hist1 := m.layerHistory.concat ((m.layerHistory.getLast?).getD (fun _ => 0))
    let entry := (hist1[new_layer_id]?).getD (fun _ => 0)
    let newMask :=
      (List.finRange 90).foldl
        (fun g x => if enabled_keys x then Function.update g x (new_layer_id % 256) else g)
        entry
    { m with effects := effects2, layerHistory := hist1.set new_layer_id newMask }

/-- `EffectManager::pop_effect()`: `Vec::pop` on both stacks (a no-op on
an empty `Vec`). -/
def pop_effect (m : EffectManager) : EffectManager :=
  { m with effects := m.effects.dropLast, layerHistory := m.layerHistory.dropLast }

end EffectManager

/-- Manager states reachable through the public API (`new`, `push_effect`,
`pop_effect`, `update`; `get_effect_layer_count` does not mutate). -/
inductive Reachable : EffectManager → Prop
  | new (now : Nat) : Reachable (EffectManager.new now)
  | push (m : EffectManager) (e : Effect) (keys : Fin 90 → Bool) :
      Reachable m → Reachable (m.push_effect e keys)
  | pop (m : EffectManager) : Reachable m → Reachable m.pop_effect
  | update (m : EffectManager) (now : Nat) (m2 : EffectManager) (out : List KeyboardData) :
      Reachable m → m.update now = some (m2, out) → Reachable m2

/-- Breath states reachable through `BreathEffect::new` and repeated
`update` calls. -/
inductive BreathReachable : BreathState → Prop
  | new (r g b cyc now : Nat) : BreathReachable (BreathEffect.new r g b cyc now)
  | update (s : BreathState) (now : Nat) :
      BreathReachable s → BreathReachable (BreathEffect.update s now)

/-- The post-call effect state of one `Effect::update` call at time `now`. -/
def stepOf (e : Effect) (now : Nat) : Effect := (Effect.update e now).fst

/-- The candidate frame produced by one `Effect::update` call at time `now`. -/
def frameOf (e : Effect) (now : Nat) : KeyboardData := (Effect.update e now).snd

/-- The mask at the top of the layer history (the only mask consulted for
rendering); defaults to the all-zero mask on an empty history. -/
def topMask (m : EffectManager) : LayerMask :=
  (m.layerHistory.getLast?).getD (fun _ => 0)

/-- The merged frame an eligible `update` tick at time `now` writes into
the combined buffer: key `k` takes its colour from the candidate frame of
the layer named by the top mask at `k`. -/
def mergedFrame (m : EffectManager) (now : Nat) : KeyboardData :=
  fun k =>
    (((m.effects.map (fun e => frameOf e now))[topMask m k]?).getD KeyboardData.new).get_key_at k

/-- The mask `push_effect` appends for a manager state satisfying the
parallel-stack invariant: the all-zero mask for the first effect,
otherwise the previous top mask with every enabled key reassigned to the
new top layer index as a `u8`. -/
def pushedMask (m : EffectManager) (keys : Fin 90 → Bool) : LayerMask :=
  if m.effects.length = 0 then fun _ => 0
  else fun k => if keys k then m.effects.length % 256 else topMask m k

/-- The parallel-stack bound from the spec: every mask value at history
position `i` is at most `i`. -/
def MaskBound (m : EffectManager) : Prop :=
  ∀ (i : Nat) (mask : LayerMask), m.layerHistory[i]? = some mask → ∀ k : Fin 90, mask k ≤ i

/-- The reachable-state invariant: the two stacks have equal length and
every stored mask value is bounded by its history position. -/
def Wf (m : EffectManager) : Prop :=
  m.layerHistory.length = m.effects.length ∧ MaskBound m

/-! ### Derived operation sequences and sample states -/

/-- Run `update` once per clock sample in `ts`, collecting every buffer
pushed through the render sink; `none` if any call panics. -/
def updateSeq : EffectManager → List Nat → Option (EffectManager × List KeyboardData)
  | m, [] => some (m, [])
  | m, t :: ts =>
    match m.update t with
    | none => none
    | some (m2, out) =>
      match updateSeq m2 ts with
      | none => none
      | some (m3, outs) => some (m3, out ++ outs)

/-- One stack operation: a `push_effect` call or a `pop_effect` call. -/
inductive StackOp where
  | pushOp (e : Effect) (keys : Fin 90 → Bool)
  | popOp

/-- Apply a sequence of stack operations to a manager state. -/
def applyOps : EffectManager → List StackOp → EffectManager
  | m, [] => m
  | m, StackOp.pushOp e keys :: ops => applyOps (m.push_effect e keys) ops
  | m, StackOp.popOp :: ops => applyOps m.pop_effect ops

/-- The expected stack depth after a sequence of stack operations:
push adds one, pop removes one with truncation at zero. -/
def depthFold : Nat → List StackOp → Nat
  | d, [] => d
  | d, StackOp.pushOp _ _ :: ops => depthFold (d + 1) ops
  | d, StackOp.popOp :: ops => depthFold (d - 1) ops

/-- Push one all-keys static effect (used to build deep stacks). -/
def pushTrue (m : EffectManager) : EffectManager :=
  m.push_effect (Effect.staticE (StaticEffect.new 0 0 0)) (fun _ => true)

/-- The manager obtained from `new` at time 0 followed by `n` all-keys
static pushes. -/
def pushedN : Nat → EffectManager
  | 0 => EffectManager.new 0
  | n + 1 => pushTrue (pushedN n)

/-- A small sample state: a fresh manager with one static effect pushed
on all keys. -/
def demoManager : EffectManager :=
  (EffectManager.new 0).push_effect (Effect.staticE (StaticEffect.new 5 6 7)) (fun _ => true)

/-! ### Arithmetic and list infrastructure -/

theorem wsub_eq_sub {a b : Nat} (hba : b ≤ a) (ha : a < U128) : wsub a b = a - b := by
  have hb : b < U128 := lt_of_le_of_lt hba ha
  unfold wsub
  rw [Nat.mod_eq_of_lt ha, Nat.mod_eq_of_lt hb]
  have h1 : a + (U128 - b) = (a - b) + U128 := by omega
  rw [h1, Nat.add_mod_right, Nat.mod_eq_of_lt (by omega)]

/-- Value, at one key, of a left fold of key-indexed writes: each step
either rewrites the keys selected by `f · = x` to `v x` (when `p x`
holds) or leaves the buffer alone; the written value never depends on the
accumulator, so the final value at `i` is `v (f i)` whenever some step of
the fold wrote key `i`. -/
theorem foldl_write_pointwise {α β : Type} [DecidableEq α] (p : α → Prop) [DecidablePred p]
    (u : α → (Fin 90 → β) → (Fin 90 → β)) (f : Fin 90 → α) (v : α → β)
    (hu : ∀ x g i, u x g i = if f i = x ∧ p x then v x else g i)
    (l : List α) (g0 : Fin 90 → β) (i : Fin 90) :
    l.foldl (fun g x => u x g) g0 i = if f i ∈ l ∧ p (f i) then v (f i) else g0 i := by
  induction l generalizing g0 with
  | nil => simp
  | cons a t ih =>
    simp only [List.foldl_cons, ih, List.mem_cons]
    rw [hu]
    by_cases h1 : f i ∈ t ∧ p (f i)
    · rw [if_pos h1, if_pos ⟨Or.inr h1.1, h1.2⟩]
    · rw [if_neg h1]
      by_cases h2 : f i = a ∧ p a
      · rw [if_pos h2, if_pos ⟨Or.inl h2.1, h2.1 ▸ h2.2⟩, h2.1]
      · rw [if_neg h2, if_neg]
        rintro ⟨h3 | h3, h4⟩
        · exact h2 ⟨h3, h3 ▸ h4⟩
        · exact h1 ⟨h3, h4⟩

theorem KeyboardData.set_key_at_apply (k : KeyboardData) (i : Fin 90) (c : RGB) (j : Fin 90) :
    k.set_key_at i c j = if j = i then c else k j := by
  simp [KeyboardData.set_key_at, Function.update_apply]

theorem KeyboardData.set_row_colour_apply (k : KeyboardData) (row r g b : Nat) (j : Fin 90) :
    k.set_row_colour row r g b j =
      if (j : Nat) / 15 = row then ⟨r % 256, g % 256, b % 256⟩ else k j := rfl

theorem KeyboardData.set_col_colour_apply (k : KeyboardData) (col r g b : Nat) (j : Fin 90) :
    k.set_col_colour col r g b j =
      if (j : Nat) % 15 = col then ⟨r % 256, g % 256, b % 256⟩ else k j := rfl

theorem KeyboardData.set_kbd_colour_apply (k : KeyboardData) (r g b : Nat) (j : Fin 90) :
    k.set_kbd_colour r g b j = ⟨r % 256, g % 256, b % 256⟩ := rfl

theorem satCast_le (q : ℚ) : satCast q ≤ 255 := Nat.min_le_left 255 _

theorem satCast_mod_256 (q : ℚ) : satCast q % 256 = satCast q :=
  Nat.mod_eq_of_lt (lt_of_le_of_lt (satCast_le q) (by omega))

theorem List.set_append_last {α : Type} (l : List α) (c nm : α) :
    (l ++ [c]).set l.length nm = l ++ [nm] := by
  induction l with
  | nil => rfl
  | cons a t ih => simp [List.set, ih]


/-- Pointwise value of a conditional single-key-write fold, the shape of
both the mask-merging loop in `push_effect` and (with `keys` constantly
true) the key-copy loop shapes. -/
theorem maskFold_apply (keys : Fin 90 → Bool) (val : Nat) (g0 : LayerMask) (k : Fin 90) :
    (List.finRange 90).foldl
      (fun g x => if keys x then Function.update g x val else g) g0 k
      = if keys k then val else g0 k := by
  have hfold := foldl_write_pointwise (β := Nat) (fun x : Fin 90 => keys x = true)
      (fun x g => if keys x then Function.update g x val else g) (fun i => i) (fun _ => val)
      (by
        intro x g i
        by_cases hx : keys x = true
        · simp only [hx, if_true, Function.update_apply, and_true]
        · simp only [hx, if_false, Bool.not_eq_true] at *
          simp [hx])
      (List.finRange 90) g0 k
  by_cases hk : keys k = true
  · rw [if_pos ⟨List.mem_finRange k, hk⟩] at hfold
    rw [if_pos hk]
    exact hfold
  · rw [if_neg (by simp [hk])] at hfold
    rw [if_neg hk]
    exact hfold

/-! ### Characterization of the merge loop -/

theorem mergeFold_eq_some (mask : LayerMask) (kb : List KeyboardData) (c0 : KeyboardData)
    (h : ∀ k : Fin 90, mask k < kb.length) :
    EffectManager.mergeFold mask kb c0 =
      some (fun k => ((kb[mask k]?).getD KeyboardData.new).get_key_at k) := by
  have aux : ∀ (l : List (Fin 90)) (c : KeyboardData),
      l.foldl
        (fun acc k => acc.bind fun c => (kb[mask k]?).map fun kbd => c.set_key_at k (kbd.get_key_at k))
        (some c)
      = some (l.foldl
          (fun c k => c.set_key_at k (((kb[mask k]?).getD KeyboardData.new).get_key_at k)) c) := by
    intro l
    induction l with
    | nil => intro c; rfl
    | cons a t ih =>
      intro c
      have hlt : mask a < kb.length := h a
      have ha : kb[mask a]? = some kb[mask a] := List.getElem?_eq_getElem hlt
      simp only [List.foldl_cons, ha, Option.some_bind, Option.map_some', Option.getD_some]
      exact ih _
  unfold EffectManager.mergeFold
  rw [aux]
  congr 1
  funext k
  have hfold := foldl_write_pointwise (β := RGB) (fun _ : Fin 90 => True)
      (fun x g => KeyboardData.set_key_at g x (((kb[mask x]?).getD KeyboardData.new).get_key_at x))
      (fun i => i)
      (fun x => ((kb[mask x]?).getD KeyboardData.new).get_key_at x)
      (by
        intro x g i
        simp [KeyboardData.set_key_at_apply])
      (List.finRange 90) c0 k
  rw [if_pos ⟨List.mem_finRange k, trivial⟩] at hfold
  exact hfold

/-! ### Characterization of push, pop and update -/


theorem push_effect_effects (m : EffectManager) (e : Effect) (keys : Fin 90 → Bool) :
    (m.push_effect e keys).effects = m.effects.concat e := by
  unfold EffectManager.push_effect
  split <;> rfl

theorem topMask_getLast (m : EffectManager) (hne : m.layerHistory ≠ []) :
    m.layerHistory.getLast? = some (topMask m) := by
  unfold topMask
  cases h : m.layerHistory.getLast? with
  | none => exact absurd (List.getLast?_eq_none_iff.mp h) hne
  | some mask => rfl

theorem push_effect_layerHistory (m : EffectManager) (e : Effect) (keys : Fin 90 → Bool)
    (h : m.layerHistory.length = m.effects.length) :
    (m.push_effect e keys).layerHistory = m.layerHistory.concat (pushedMask m keys) := by
  unfold EffectManager.push_effect pushedMask topMask
  by_cases h0 : m.layerHistory.length = 0
  · rw [if_pos h0, if_pos (by omega)]
  · rw [if_neg h0, if_neg (by omega)]
    simp only [List.length_concat, Nat.add_sub_cancel, ← h]
    have hentry :
        (m.layerHistory ++ [(m.layerHistory.getLast?).getD fun _ => 0])[m.layerHistory.length]?
          = some ((m.layerHistory.getLast?).getD fun _ => 0) := by
      rw [List.getElem?_append]
      simp
    simp only [List.concat_eq_append, hentry, Option.getD_some]
    rw [List.set_append_last]
    congr 2
    funext k
    rw [maskFold_apply]

theorem pop_effect_def (m : EffectManager) :
    m.pop_effect =
      { m with effects := m.effects.dropLast, layerHistory := m.layerHistory.dropLast } := rfl


theorem topMask_bound (m : EffectManager) (hne : m.layerHistory ≠ []) (hb : MaskBound m)
    (k : Fin 90) : topMask m k ≤ m.layerHistory.length - 1 := by
  have hg := topMask_getLast m hne
  rw [List.getLast?_eq_getElem?] at hg
  exact hb _ _ hg k

/-- Full behaviour of one `update` call on an invariant-satisfying state:
either an eligible render tick (frame gate passed and at least one layer)
or a silent no-op; never a panic. -/
theorem update_run (m : EffectManager) (now : Nat) (hw : Wf m) :
    m.update now =
      if ANIMATIONS_DELAY_MS ≤ wsub now m.lastUpdateTime ∧ m.layerHistory.length ≠ 0 then
        some ({ m with effects := m.effects.map (fun e => stepOf e now)
                       combined := mergedFrame m now
                       lastUpdateTime := now }, [mergedFrame m now])
      else some (m, []) := by
  obtain ⟨h1, h2⟩ := hw
  unfold EffectManager.update
  by_cases hg : ANIMATIONS_DELAY_MS ≤ wsub now m.lastUpdateTime
  · rw [if_pos hg]
    cases hL : m.layerHistory.getLast? with
    | none =>
      have hnil : m.layerHistory = [] := List.getLast?_eq_none_iff.mp hL
      rw [if_neg (by simp [hnil])]
    | some mask =>
      have hne : m.layerHistory ≠ [] := by
        intro hnil
        rw [hnil] at hL
        exact Option.noConfusion hL
      have hlen : m.layerHistory.length ≠ 0 := fun hz => hne (List.length_eq_zero.mp hz)
      rw [if_pos ⟨hg, hlen⟩]
      have hmask : mask = topMask m := by
        have := topMask_getLast m hne
        rw [hL] at this
        exact Option.some.inj this
      have hbound : ∀ k : Fin 90,
          mask k < ((m.effects.map (fun e => Effect.update e now)).map Prod.snd).length := by
        intro k
        have hb := topMask_bound m hne h2 k
        rw [← hmask] at hb
        simp only [List.length_map]
        omega
      dsimp only
      rw [mergeFold_eq_some _ _ _ hbound]
      simp only [Option.some.injEq, Prod.mk.injEq]
      constructor
      · congr 1
        · rw [List.map_map]
          rfl
        · funext k
          simp only [mergedFrame, List.map_map, hmask]
          rfl
      · congr 1
        funext k
        simp only [mergedFrame, List.map_map, hmask]
        rfl
  · rw [if_neg hg, if_neg (by tauto)]

theorem wf_new (now : Nat) : Wf (EffectManager.new now) := by
  constructor
  · rfl
  · intro i mask hm k
    simp [EffectManager.new] at hm

theorem wf_push (m : EffectManager) (e : Effect) (keys : Fin 90 → Bool) (hw : Wf m) :
    Wf (m.push_effect e keys) := by
  obtain ⟨h1, h2⟩ := hw
  constructor
  · rw [push_effect_layerHistory m e keys h1, push_effect_effects]
    simp [h1]
  · intro i mask hm k
    rw [push_effect_layerHistory m e keys h1, List.concat_eq_append,
      List.getElem?_append] at hm
    by_cases hi : i < m.layerHistory.length
    · rw [if_pos hi] at hm
      exact h2 i mask hm k
    · rw [if_neg hi] at hm
      cases hd : i - m.layerHistory.length with
      | zero =>
        rw [hd] at hm
        simp only [List.getElem?_cons_zero, Option.some.injEq] at hm
        subst hm
        unfold pushedMask
        by_cases hz : m.effects.length = 0
        · rw [if_pos hz]
          omega
        · rw [if_neg hz]
          have hne : m.layerHistory ≠ [] := by
            intro hnil
            rw [hnil] at h1
            exact hz h1.symm
          by_cases hk : keys k = true
          · rw [if_pos hk]
            have := Nat.mod_le m.effects.length 256
            omega
          · rw [if_neg hk]
            have := topMask_bound m hne h2 k
            omega
      | succ n =>
        rw [hd] at hm
        simp at hm
theorem wf_pop (m : EffectManager) (hw : Wf m) : Wf m.pop_effect := by
  obtain ⟨h1, h2⟩ := hw
  constructor
  · show m.layerHistory.dropLast.length = m.effects.dropLast.length
    simp [List.length_dropLast, h1]
  · intro i mask hm k
    have hm2 : m.layerHistory[i]? = some mask := by
      have : m.pop_effect.layerHistory = m.layerHistory.dropLast := rfl
      rw [this, List.dropLast_eq_take, List.getElem?_take] at hm
      by_cases hi : i < m.layerHistory.length - 1
      · rw [if_pos hi] at hm
        exact hm
      · rw [if_neg hi] at hm
        exact absurd hm (by simp)
    exact h2 i mask hm2 k

theorem wf_update (m : EffectManager) (now : Nat) (m2 : EffectManager)
    (out : List KeyboardData) (hw : Wf m) (h : m.update now = some (m2, out)) : Wf m2 := by
  rw [update_run m now hw] at h
  obtain ⟨h1, h2⟩ := hw
  by_cases hc : ANIMATIONS_DELAY_MS ≤ wsub now m.lastUpdateTime ∧ m.layerHistory.length ≠ 0
  · rw [if_pos hc] at h
    simp only [Option.some.injEq, Prod.mk.injEq] at h
    obtain ⟨hm2, _⟩ := h
    subst hm2
    constructor
    · simpa using h1
    · intro i mask hm k
      exact h2 i mask hm k
  · rw [if_neg hc] at h
    simp only [Option.some.injEq, Prod.mk.injEq] at h
    obtain ⟨hm2, _⟩ := h
    subst hm2
    exact ⟨h1, h2⟩

/-- Every state reachable through the public API satisfies the
parallel-stack invariant. -/
theorem reachable_wf (m : EffectManager) (hr : Reachable m) : Wf m := by
  induction hr with
  | new now => exact wf_new now
  | push m e keys _ ih => exact wf_push m e keys ih
  | pop m _ ih => exact wf_pop m ih
  | update m now m2 out _ h ih => exact wf_update m now m2 out ih h

/-! ### Further characterization lemmas -/

theorem topMask_push (m : EffectManager) (e : Effect) (keys : Fin 90 → Bool)
    (h : m.layerHistory.length = m.effects.length) :
    topMask (m.push_effect e keys) = pushedMask m keys := by
  unfold topMask
  rw [push_effect_layerHistory m e keys h, List.concat_eq_append, List.getLast?_concat]
  rfl

theorem push_pop (m : EffectManager) (e : Effect) (keys : Fin 90 → Bool) (hw : Wf m) :
    (m.push_effect e keys).pop_effect = m := by
  have he : (m.push_effect e keys).effects.dropLast = m.effects := by
    rw [push_effect_effects, List.concat_eq_append, List.dropLast_concat]
  have hh : (m.push_effect e keys).layerHistory.dropLast = m.layerHistory := by
    rw [push_effect_layerHistory m e keys hw.1, List.concat_eq_append, List.dropLast_concat]
  have hl : (m.push_effect e keys).lastUpdateTime = m.lastUpdateTime := by
    unfold EffectManager.push_effect
    split <;> rfl
  have hc : (m.push_effect e keys).combined = m.combined := by
    unfold EffectManager.push_effect
    split <;> rfl
  rw [pop_effect_def, hl, hc, he, hh]

theorem applyOps_count (ops : List StackOp) (m : EffectManager) :
    (applyOps m ops).effects.length = depthFold m.effects.length ops := by
  induction ops generalizing m with
  | nil => rfl
  | cons op t ih =>
    cases op with
    | pushOp e keys =>
      show (applyOps (m.push_effect e keys) t).effects.length = depthFold (m.effects.length + 1) t
      rw [ih]
      congr 1
      rw [push_effect_effects]
      simp
    | popOp =>
      show (applyOps m.pop_effect t).effects.length = depthFold (m.effects.length - 1) t
      rw [ih]
      congr 1
      show m.effects.dropLast.length = _
      simp [List.length_dropLast]

theorem pushedN_reachable (n : Nat) : Reachable (pushedN n) := by
  induction n with
  | zero => exact Reachable.new 0
  | succ n ih => exact Reachable.push (pushedN n) _ _ ih

theorem pushedN_effects_length (n : Nat) : (pushedN n).effects.length = n := by
  induction n with
  | zero => rfl
  | succ n ih =>
    show ((pushedN n).push_effect _ _).effects.length = n + 1
    rw [push_effect_effects]
    simp [ih]

/-- Pointwise value of the vertical blend buffer: key `i` carries the
interpolated colour of its row `i / 15` at ratio `(row + 1) / 6`. -/
theorem blend_vertical_apply (r1 g1 b1 r2 g2 b2 : Nat) (i : Fin 90) :
    BlendEffect.vertical r1 g1 b1 r2 g2 b2 i =
      ⟨satCast ((r1 : ℚ) + ((r2 : ℚ) - (r1 : ℚ)) * (((((i : Nat) / 15 : Nat) : ℚ) + 1) / 6)),
       satCast ((g1 : ℚ) + ((g2 : ℚ) - (g1 : ℚ)) * (((((i : Nat) / 15 : Nat) : ℚ) + 1) / 6)),
       satCast ((b1 : ℚ) + ((b2 : ℚ) - (b1 : ℚ)) * (((((i : Nat) / 15 : Nat) : ℚ) + 1) / 6))⟩ := by
  unfold BlendEffect.vertical
  have hfold := foldl_write_pointwise (β := RGB) (fun _ : Nat => True)
      (fun x g =>
        KeyboardData.set_row_colour g x
          (satCast ((r1 : ℚ) + ((r2 : ℚ) - (r1 : ℚ)) * (((x : ℚ) + 1) / 6)))
          (satCast ((g1 : ℚ) + ((g2 : ℚ) - (g1 : ℚ)) * (((x : ℚ) + 1) / 6)))
          (satCast ((b1 : ℚ) + ((b2 : ℚ) - (b1 : ℚ)) * (((x : ℚ) + 1) / 6))))
      (fun j => (j : Nat) / 15)
      (fun x =>
        (⟨satCast ((r1 : ℚ) + ((r2 : ℚ) - (r1 : ℚ)) * (((x : ℚ) + 1) / 6)) % 256,
          satCast ((g1 : ℚ) + ((g2 : ℚ) - (g1 : ℚ)) * (((x : ℚ) + 1) / 6)) % 256,
          satCast ((b1 : ℚ) + ((b2 : ℚ) - (b1 : ℚ)) * (((x : ℚ) + 1) / 6)) % 256⟩ : RGB))
      (by
        intro x g j
        dsimp only
        rw [KeyboardData.set_row_colour_apply]
        simp only [and_true])
      (List.range 6) KeyboardData.new i
  have hmem : (i : Nat) / 15 ∈ List.range 6 := by
    refine List.mem_range.mpr ?_
    have hi : (i : Nat) < 90 := i.isLt
    omega
  rw [if_pos ⟨hmem, trivial⟩] at hfold
  rw [satCast_mod_256, satCast_mod_256, satCast_mod_256] at hfold
  exact hfold

/-- The phase counter after one `BreathEffect::update` call, isolating the
phase-advance condition exactly as written in the source. -/
theorem breath_update_curr_step (s : BreathState) (now : Nat) :
    (BreathEffect.update s now).curr_step =
      if s.step_duration_ms ≤ wsub now s.step_duration_ms then
        (if (s.curr_step + 1) % 256 = 4 then 0 else (s.curr_step + 1) % 256)
      else s.curr_step := by
  unfold BreathEffect.update
  dsimp only
  split_ifs <;> rfl

theorem breath_update_duration (s : BreathState) (now : Nat) :
    (BreathEffect.update s now).step_duration_ms = s.step_duration_ms := by
  unfold BreathEffect.update
  dsimp only
  split_ifs <;> rfl

theorem breath_reachable_step_lt (s : BreathState) (h : BreathReachable s) : s.curr_step < 4 := by
  induction h with
  | new r g b cyc now => show (0 : Nat) < 4; omega
  | update s now _ ih =>
    rw [breath_update_curr_step]
    by_cases hc : s.step_duration_ms ≤ wsub now s.step_duration_ms
    · rw [if_pos hc]
      have hmod : (s.curr_step + 1) % 256 = s.curr_step + 1 := Nat.mod_eq_of_lt (by omega)
      rw [hmod]
      by_cases h4 : s.curr_step + 1 = 4
      · rw [if_pos h4]; omega
      · rw [if_neg h4]; omega
    · rw [if_neg hc]; exact ih

/-- Under a realistic clock (`now ≥ 2 · duration`), the phase-advance
condition of `BreathEffect::update` always fires. -/
theorem breath_advances (s : BreathState) (now : Nat) (h4 : s.curr_step < 4)
    (hclk : now < U128) (h2d : 2 * s.step_duration_ms ≤ now) :
    (BreathEffect.update s now).curr_step = (s.curr_step + 1) % 4 := by
  rw [breath_update_curr_step]
  have hsub : wsub now s.step_duration_ms = now - s.step_duration_ms :=
    wsub_eq_sub (by omega) hclk
  rw [if_pos (by rw [hsub]; omega)]
  have hmod : (s.curr_step + 1) % 256 = s.curr_step + 1 := Nat.mod_eq_of_lt (by omega)
  rw [hmod]
  by_cases hx : s.curr_step + 1 = 4
  · rw [if_pos hx]; omega
  · rw [if_neg hx]; omega

/-! ### Claims -/

/-- C1. For every reachable manager state with a non-empty effect stack,
when `update` is called at least 33 ms of wall-clock time after the last
render, it steps every effect's frame-production operation exactly once in
stack order (`effects` becomes the elementwise `stepOf`-image of the old
stack, occluded or not), sets every one of the 90 keys of the combined
buffer to that key's colour in the candidate frame of the layer named by
the top layer mask (`mergedFrame`), renders exactly that buffer through
the render sink, and sets the last-render timestamp to the current time. -/
theorem C1_update_render_tick (m : EffectManager) (now : Nat) (hr : Reachable m)
    (hne : m.effects ≠ []) (hmono : m.lastUpdateTime ≤ now) (hclk : now < U128)
    (hgate : ANIMATIONS_DELAY_MS ≤ now - m.lastUpdateTime) :
    m.update now =
      some ({ layerHistory := m.layerHistory
              effects := m.effects.map (fun e => stepOf e now)
              lastUpdateTime := now
              combined := mergedFrame m now }, [mergedFrame m now]) := by
  have hw := reachable_wf m hr
  rw [update_run m now hw]
  rw [if_pos ⟨by rw [wsub_eq_sub hmono hclk]; exact hgate,
    by rw [hw.1]; intro h; exact hne (List.length_eq_zero.mp h)⟩]

/-- Witness for C1 at a concrete one-effect state and `now = 33`. -/
theorem C1_witness :
    demoManager.update 33 =
      some ({ layerHistory := demoManager.layerHistory
              effects := demoManager.effects.map (fun e => stepOf e 33)
              lastUpdateTime := 33
              combined := mergedFrame demoManager 33 }, [mergedFrame demoManager 33]) :=
  C1_update_render_tick demoManager 33
    (Reachable.push _ _ _ (Reachable.new 0))
    (by
      intro h
      have h1 : demoManager.effects.length = 1 := rfl
      rw [h] at h1
      exact absurd h1 (by decide))
    (by decide) (by decide) (by decide)

/-- C2. On every reachable manager state, `update` is a complete no-op —
state returned unchanged and nothing rendered — whenever less than 33 ms
of wall-clock time has elapsed since the last render, or the effect stack
is empty; with an empty stack this holds for every clock value, so any
sequence of repeated `update` calls never invokes the render sink and
never changes the state. -/
theorem C2_update_noop (m : EffectManager) (hr : Reachable m) :
    (∀ now, m.lastUpdateTime ≤ now → now < U128 →
        now - m.lastUpdateTime < ANIMATIONS_DELAY_MS → m.update now = some (m, [])) ∧
    (m.effects = [] → ∀ now, m.update now = some (m, [])) ∧
    (m.effects = [] → ∀ ts : List Nat, updateSeq m ts = some (m, [])) := by
  have hw := reachable_wf m hr
  have p2 : m.effects = [] → ∀ now, m.update now = some (m, []) := by
    intro he now
    rw [update_run m now hw, if_neg]
    rintro ⟨_, hlen⟩
    exact hlen (by rw [hw.1, he]; rfl)
  refine ⟨?_, p2, ?_⟩
  · intro now h1 h2 h3
    rw [update_run m now hw, if_neg]
    rintro ⟨hg, _⟩
    rw [wsub_eq_sub h1 h2] at hg
    omega
  · intro he ts
    induction ts with
    | nil => rfl
    | cons t ts ih =>
      show (match m.update t with
        | none => none
        | some (m2, out) =>
          match updateSeq m2 ts with
          | none => none
          | some (m3, outs) => some (m3, out ++ outs)) = some (m, [])
      rw [p2 he t]
      dsimp only
      rw [ih]
      rfl

/-- Witness for C2: a fresh empty manager, one gated call, one
empty-stack call and a three-call sequence. -/
theorem C2_witness :
    (EffectManager.new 5).update 20 = some (EffectManager.new 5, []) ∧
    (EffectManager.new 5).update 1000 = some (EffectManager.new 5, []) ∧
    updateSeq (EffectManager.new 5) [100, 200, 300] = some (EffectManager.new 5, []) :=
  ⟨(C2_update_noop (EffectManager.new 5) (Reachable.new 5)).1 20 (by decide) (by decide) (by decide),
   (C2_update_noop (EffectManager.new 5) (Reachable.new 5)).2.1 rfl 1000,
   (C2_update_noop (EffectManager.new 5) (Reachable.new 5)).2.2 rfl [100, 200, 300]⟩

/-- C3 (amended). `push_effect` appends the effect to the stack; the new
top mask is the all-zero mask if the stack was empty, and otherwise is an
exact copy of the previous top mask except that every enabled key's owner
becomes the new topmost layer index reduced modulo 256 (the mask stores
`u8` values; for at most 256 effects this is exactly the new topmost
layer index). With `enabled_keys` all false, the top mask is unchanged. -/
theorem C3_push_mask (m : EffectManager) (e : Effect) (keys : Fin 90 → Bool)
    (h : m.layerHistory.length = m.effects.length) :
    (m.push_effect e keys).effects = m.effects.concat e ∧
    (m.push_effect e keys).layerHistory =
      m.layerHistory.concat
        (if m.effects.length = 0 then fun _ => 0
         else fun k => if keys k then m.effects.length % 256 else topMask m k) ∧
    (m.effects.length ≠ 0 → (∀ k, keys k = false) →
      topMask (m.push_effect e keys) = topMask m) := by
  refine ⟨push_effect_effects m e keys, push_effect_layerHistory m e keys h, ?_⟩
  intro hne hfalse
  rw [topMask_push m e keys h]
  unfold pushedMask
  rw [if_neg hne]
  funext k
  rw [hfalse k]
  rfl

theorem pushedN_succ (n : Nat) : pushedN (n + 1) = pushTrue (pushedN n) := rfl

/-- C3 counterexample. After 257 pushes with `enabled_keys` all true, the
new topmost layer index is 256, but the `u8` store `new_layer_id as u8`
wraps, so the pushed top mask assigns key 0 the owner 0, not 256: the
claim's "reassigns that key's owner to the new (topmost) layer index"
fails as stated. -/
theorem C3_counterexample :
    (pushedN 257).effects.length - 1 = 256 ∧
    topMask (pushedN 257) (0 : Fin 90) = 0 ∧
    topMask (pushedN 257) (0 : Fin 90) ≠ (pushedN 257).effects.length - 1 := by
  have h257 := pushedN_effects_length 257
  have h256 := pushedN_effects_length 256
  have hw := reachable_wf (pushedN 256) (pushedN_reachable 256)
  have hstep : pushedN 257 = pushTrue (pushedN 256) := pushedN_succ 256
  have ht : topMask (pushedN 257) = pushedMask (pushedN 256) (fun _ => true) := by
    rw [hstep]
    exact topMask_push (pushedN 256) _ _ hw.1
  have hv : topMask (pushedN 257) (0 : Fin 90) = 0 := by
    rw [ht]
    unfold pushedMask
    rw [if_neg (by omega)]
    rw [h256]
    rfl
  exact ⟨by omega, hv, by omega⟩

/-- Witness for C3 (amended): push a second, all-keys-false effect onto a
one-effect manager; the stack grows and the top mask is unchanged. -/
theorem C3_witness :
    (demoManager.push_effect (Effect.staticE (StaticEffect.new 9 9 9)) (fun _ => false)).effects
        = demoManager.effects.concat (Effect.staticE (StaticEffect.new 9 9 9)) ∧
    (demoManager.push_effect (Effect.staticE (StaticEffect.new 9 9 9)) (fun _ => false)).layerHistory
        = demoManager.layerHistory.concat
            (if demoManager.effects.length = 0 then fun _ => 0
             else fun k => if (fun _ : Fin 90 => false) k then demoManager.effects.length % 256
               else topMask demoManager k) ∧
    topMask (demoManager.push_effect (Effect.staticE (StaticEffect.new 9 9 9)) (fun _ => false))
        = topMask demoManager :=
  have h := C3_push_mask demoManager (Effect.staticE (StaticEffect.new 9 9 9)) (fun _ => false) rfl
  ⟨h.1, h.2.1, h.2.2 (by decide) (fun _ => rfl)⟩

/-- C4. On every reachable manager state, push-then-pop is the identity
(both stacks, and in fact the whole state, are restored), and in
particular push A, push B, pop leaves the manager exactly as it was after
pushing A, so the resulting top mask is A's mask. -/
theorem C4_push_pop_lifo (m : EffectManager) (hr : Reachable m) (e1 : Effect)
    (k1 : Fin 90 → Bool) (e2 : Effect) (k2 : Fin 90 → Bool) :
    ((m.push_effect e1 k1).push_effect e2 k2).pop_effect = m.push_effect e1 k1 ∧
    topMask (((m.push_effect e1 k1).push_effect e2 k2).pop_effect) = topMask (m.push_effect e1 k1) ∧
    (m.push_effect e1 k1).pop_effect = m := by
  have hw := reachable_wf m hr
  have hw1 := wf_push m e1 k1 hw
  have h1 : ((m.push_effect e1 k1).push_effect e2 k2).pop_effect = m.push_effect e1 k1 :=
    push_pop (m.push_effect e1 k1) e2 k2 hw1
  exact ⟨h1, by rw [h1], push_pop m e1 k1 hw⟩

/-- Witness for C4 at a concrete state: one static base effect, a second
partial overlay, then pop. -/
theorem C4_witness :
    ((demoManager.push_effect (Effect.staticE (StaticEffect.new 1 1 1))
          (fun k => decide ((k : Nat) < 10))).push_effect
        (Effect.staticE (StaticEffect.new 2 2 2)) (fun _ => false)).pop_effect
      = demoManager.push_effect (Effect.staticE (StaticEffect.new 1 1 1))
          (fun k => decide ((k : Nat) < 10)) ∧
    (demoManager.push_effect (Effect.staticE (StaticEffect.new 1 1 1))
        (fun k => decide ((k : Nat) < 10))).pop_effect = demoManager :=
  have h := C4_push_pop_lifo demoManager (Reachable.push _ _ _ (Reachable.new 0))
    (Effect.staticE (StaticEffect.new 1 1 1)) (fun k => decide ((k : Nat) < 10))
    (Effect.staticE (StaticEffect.new 2 2 2)) (fun _ => false)
  ⟨h.1, h.2.2⟩

/-- C5. The invariant `len(layer_history) == len(effects)` holds in every
manager state reachable through `new`, `push_effect`, `pop_effect`,
`update` and `get_effect_layer_count` (the latter does not mutate). -/
theorem C5_parallel_stacks (m : EffectManager) (hr : Reachable m) :
    m.layerHistory.length = m.effects.length :=
  (reachable_wf m hr).1

/-- Witness for C5 after a push, a pop and a fresh construction. -/
theorem C5_witness :
    demoManager.layerHistory.length = demoManager.effects.length ∧
    demoManager.pop_effect.layerHistory.length = demoManager.pop_effect.effects.length :=
  ⟨C5_parallel_stacks demoManager (Reachable.push _ _ _ (Reachable.new 0)),
   C5_parallel_stacks demoManager.pop_effect
     (Reachable.pop _ (Reachable.push _ _ _ (Reachable.new 0)))⟩

/-- C6. On each produce-frame call of a Breath effect the phase counter
advances by exactly one (wrapping 3 back to 0) exactly when the source's
condition `get_millis() - step_duration_ms >= step_duration_ms` holds —
the elapsed time measured against the cycle duration itself, not the
phase-start time — and is unchanged otherwise; consequently every
reachable Breath state has its phase counter in `{0, 1, 2, 3}`. -/
theorem C6_breath_phase (s : BreathState) (now : Nat) (hs : BreathReachable s) :
    s.curr_step < 4 ∧
    (s.step_duration_ms ≤ wsub now s.step_duration_ms →
      (BreathEffect.update s now).curr_step =
        if s.curr_step = 3 then 0 else s.curr_step + 1) ∧
    (wsub now s.step_duration_ms < s.step_duration_ms →
      (BreathEffect.update s now).curr_step = s.curr_step) := by
  have h4 := breath_reachable_step_lt s hs
  refine ⟨h4, ?_, ?_⟩
  · intro hc
    rw [breath_update_curr_step, if_pos hc]
    have hmod : (s.curr_step + 1) % 256 = s.curr_step + 1 := Nat.mod_eq_of_lt (by omega)
    rw [hmod]
    by_cases h3 : s.curr_step = 3
    · rw [if_pos h3, if_pos (by omega)]
    · rw [if_neg h3, if_neg (by omega)]
  · intro hc
    rw [breath_update_curr_step, if_neg (by omega)]

/-- Witness for C6: a freshly constructed Breath effect updated at a clock
value past twice the cycle duration, and one below it. -/
theorem C6_witness :
    (BreathEffect.new 255 128 0 100 0).curr_step < 4 ∧
    (BreathEffect.update (BreathEffect.new 255 128 0 100 0) 200).curr_step =
      (if (BreathEffect.new 255 128 0 100 0).curr_step = 3 then 0
       else (BreathEffect.new 255 128 0 100 0).curr_step + 1) ∧
    (BreathEffect.update (BreathEffect.new 255 128 0 100 0) 150).curr_step =
      (BreathEffect.new 255 128 0 100 0).curr_step :=
  ⟨(C6_breath_phase (BreathEffect.new 255 128 0 100 0) 200
      (BreathReachable.new 255 128 0 100 0)).1,
   (C6_breath_phase (BreathEffect.new 255 128 0 100 0) 200
      (BreathReachable.new 255 128 0 100 0)).2.1 (by decide),
   (C6_breath_phase (BreathEffect.new 255 128 0 100 0) 150
      (BreathReachable.new 255 128 0 100 0)).2.2 (by decide)⟩

/-- C7 (amended). For a vertical blend from colour 1 to colour 2, the key
in row `i` (0-indexed) has each channel equal to
`channel1 + (channel2 - channel1) * ((i+1)/6)`, truncated to an integer
and saturated to `[0, 255]` (`satCast`); in particular for colours
(0,0,0) to (255,255,255) every key of row 5 equals (255,255,255), and
every key of row 0 has each channel equal to `⌊255/6⌋ = 42` — the
truncated value, not `round(255/6) = 43` as the claim states. -/
theorem C7_blend_vertical (r1 g1 b1 r2 g2 b2 : Nat) (i : Fin 90) :
    BlendEffect.new r1 g1 b1 r2 g2 b2 EffectDir.Vertical i =
      ⟨satCast ((r1 : ℚ) + ((r2 : ℚ) - (r1 : ℚ)) * (((((i : Nat) / 15 : Nat) : ℚ) + 1) / 6)),
       satCast ((g1 : ℚ) + ((g2 : ℚ) - (g1 : ℚ)) * (((((i : Nat) / 15 : Nat) : ℚ) + 1) / 6)),
       satCast ((b1 : ℚ) + ((b2 : ℚ) - (b1 : ℚ)) * (((((i : Nat) / 15 : Nat) : ℚ) + 1) / 6))⟩ ∧
    ((i : Nat) / 15 = 5 →
      BlendEffect.new 0 0 0 255 255 255 EffectDir.Vertical i = ⟨255, 255, 255⟩) ∧
    ((i : Nat) / 15 = 0 →
      BlendEffect.new 0 0 0 255 255 255 EffectDir.Vertical i = ⟨42, 42, 42⟩) := by
  have hgen : ∀ a1 c1 e1 a2 c2 e2 : Nat,
      BlendEffect.new a1 c1 e1 a2 c2 e2 EffectDir.Vertical i =
        ⟨satCast ((a1 : ℚ) + ((a2 : ℚ) - (a1 : ℚ)) * (((((i : Nat) / 15 : Nat) : ℚ) + 1) / 6)),
         satCast ((c1 : ℚ) + ((c2 : ℚ) - (c1 : ℚ)) * (((((i : Nat) / 15 : Nat) : ℚ) + 1) / 6)),
         satCast ((e1 : ℚ) + ((e2 : ℚ) - (e1 : ℚ)) * (((((i : Nat) / 15 : Nat) : ℚ) + 1) / 6))⟩ := by
    intro a1 c1 e1 a2 c2 e2
    show BlendEffect.vertical a1 c1 e1 a2 c2 e2 i = _
    exact blend_vertical_apply a1 c1 e1 a2 c2 e2 i
  refine ⟨hgen r1 g1 b1 r2 g2 b2, ?_, ?_⟩
  · intro h5
    rw [hgen 0 0 0 255 255 255, h5]
    simp only [RGB.mk.injEq]
    norm_num [satCast, Int.floor_eq_iff, Int.toNat_ofNat]
  · intro h0
    rw [hgen 0 0 0 255 255 255, h0]
    have hfl : (⌊((0:Nat) : ℚ) + (((255:Nat) : ℚ) - ((0:Nat) : ℚ)) * ((((0:Nat) : ℚ) + 1) / 6)⌋ : ℤ) = 42 := by
      norm_num [Int.floor_eq_iff]
    simp only [RGB.mk.injEq]
    rw [satCast, hfl]
    norm_num
    decide

/-- C7 counterexample. The claim asserts each row-0 channel of the
(0,0,0)→(255,255,255) vertical blend equals `round(255/6)`; but
`round(255/6) = round(42.5) = 43`, while the code truncates the
interpolated value to 42: key 0 (a row-0 key) refutes the equality. -/
theorem C7_counterexample :
    round ((255 : ℚ) / 6) = 43 ∧
    BlendEffect.new 0 0 0 255 255 255 EffectDir.Vertical (0 : Fin 90) = ⟨42, 42, 42⟩ ∧
    ((BlendEffect.new 0 0 0 255 255 255 EffectDir.Vertical (0 : Fin 90)).red : ℤ) ≠
      round ((255 : ℚ) / 6) := by
  have hround : round ((255 : ℚ) / 6) = 43 := by
    rw [round_eq]
    norm_num [Int.floor_eq_iff]
  have hval : BlendEffect.new 0 0 0 255 255 255 EffectDir.Vertical (0 : Fin 90) = ⟨42, 42, 42⟩ := by
    have h := blend_vertical_apply 0 0 0 255 255 255 (0 : Fin 90)
    have h0 : ((0 : Fin 90) : Nat) / 15 = 0 := rfl
    rw [h0] at h
    show BlendEffect.vertical 0 0 0 255 255 255 (0 : Fin 90) = _
    rw [h]
    have hfl : (⌊((0:Nat) : ℚ) + (((255:Nat) : ℚ) - ((0:Nat) : ℚ)) * ((((0:Nat) : ℚ) + 1) / 6)⌋ : ℤ) = 42 := by
      norm_num [Int.floor_eq_iff]
    simp only [RGB.mk.injEq]
    rw [satCast, hfl]
    norm_num
    decide
  refine ⟨hround, hval, ?_⟩
  rw [hval, hround]
  decide

/-- Witness for C7 (amended) at row-5 key 80 and row-0 key 3. -/
theorem C7_witness :
    BlendEffect.new 0 0 0 255 255 255 EffectDir.Vertical (80 : Fin 90) = ⟨255, 255, 255⟩ ∧
    BlendEffect.new 0 0 0 255 255 255 EffectDir.Vertical (3 : Fin 90) = ⟨42, 42, 42⟩ :=
  ⟨(C7_blend_vertical 0 0 0 255 255 255 (80 : Fin 90)).2.1 (by decide),
   (C7_blend_vertical 0 0 0 255 255 255 (3 : Fin 90)).2.2 (by decide)⟩

/-- C8. `pop_effect` on a reachable state with an empty effect stack is a
complete no-op (`Vec::pop` on an empty vector, never a panic), and after
any sequence of push/pop operations from a fresh manager,
`get_effect_layer_count()` equals the running stack depth with pops past
empty floored at 0 (`Nat` truncated subtraction). -/
theorem C8_pop_empty_and_depth :
    (∀ m : EffectManager, Reachable m → m.effects = [] → m.pop_effect = m) ∧
    (∀ (t : Nat) (ops : List StackOp),
      (applyOps (EffectManager.new t) ops).get_effect_layer_count = depthFold 0 ops) := by
  constructor
  · intro m hr he
    have hw := reachable_wf m hr
    have hh : m.layerHistory = [] := by
      rw [← List.length_eq_zero]
      rw [hw.1, he]
      rfl
    rw [pop_effect_def, he, hh]
    show ({ layerHistory := ([] : List LayerMask), effects := ([] : List Effect),
            lastUpdateTime := m.lastUpdateTime, combined := m.combined } : EffectManager) = m
    rw [← he, ← hh]
  · intro t ops
    exact applyOps_count ops (EffectManager.new t)

/-- Witness for C8: pop on a fresh manager, and a pop-heavy operation
sequence whose depth floors at zero. -/
theorem C8_witness :
    (EffectManager.new 0).pop_effect = EffectManager.new 0 ∧
    (applyOps (EffectManager.new 0)
        [StackOp.popOp, StackOp.popOp,
         StackOp.pushOp (Effect.staticE (StaticEffect.new 1 2 3)) (fun _ => false),
         StackOp.popOp, StackOp.popOp,
         StackOp.pushOp (Effect.staticE (StaticEffect.new 4 5 6)) (fun _ => true)]).get_effect_layer_count
      = depthFold 0
        [StackOp.popOp, StackOp.popOp,
         StackOp.pushOp (Effect.staticE (StaticEffect.new 1 2 3)) (fun _ => false),
         StackOp.popOp, StackOp.popOp,
         StackOp.pushOp (Effect.staticE (StaticEffect.new 4 5 6)) (fun _ => true)] :=
  ⟨C8_pop_empty_and_depth.1 (EffectManager.new 0) (Reachable.new 0) rfl,
   C8_pop_empty_and_depth.2 0
     [StackOp.popOp, StackOp.popOp,
      StackOp.pushOp (Effect.staticE (StaticEffect.new 1 2 3)) (fun _ => false),
      StackOp.popOp, StackOp.popOp,
      StackOp.pushOp (Effect.staticE (StaticEffect.new 4 5 6)) (fun _ => true)]⟩

/-- C9. In every reachable manager state, every value stored in the layer
mask at history position `i` is at most `i` and is a valid index into the
effect stack; consequently the candidate-frame indexing in an eligible
`update` tick is always in bounds and `update` never hits its panic
(`none`) branch, for every clock value. -/
theorem C9_mask_values_safe (m : EffectManager) (hr : Reachable m) :
    (∀ (i : Nat) (mask : LayerMask), m.layerHistory[i]? = some mask →
      ∀ k : Fin 90, mask k ≤ i ∧ mask k < m.effects.length) ∧
    ∀ now, (m.update now).isSome := by
  have hw := reachable_wf m hr
  constructor
  · intro i mask hm k
    have hb := hw.2 i mask hm k
    have hlt : i < m.layerHistory.length := by
      by_contra hge
      rw [List.getElem?_eq_none (by omega)] at hm
      exact Option.noConfusion hm
    refine ⟨hb, ?_⟩
    rw [← hw.1]
    omega
  · intro now
    rw [update_run m now hw]
    split <;> rfl

/-- Witness for C9 at a concrete one-effect state. -/
theorem C9_witness :
    (topMask demoManager (0 : Fin 90) ≤ 0 ∧
      topMask demoManager (0 : Fin 90) < demoManager.effects.length) ∧
    (demoManager.update 50).isSome :=
  ⟨(C9_mask_values_safe demoManager (Reachable.push _ _ _ (Reachable.new 0))).1
      0 (topMask demoManager) rfl (0 : Fin 90),
   (C9_mask_values_safe demoManager (Reachable.push _ _ _ (Reachable.new 0))).2 50⟩

/-- C10. For every Breath state with an in-range phase counter and every
produce-frame call at a sampled wall-clock value of at least twice the
cycle duration (true of every realistic millisecond clock), the phase
counter advances by exactly one modulo 4 — it never stays the same — so
four such calls cycle through all four phases and return to the start. -/
theorem C10_breath_always_advances (s : BreathState) (now : Nat) (h4 : s.curr_step < 4)
    (hclk : now < U128) (h2d : 2 * s.step_duration_ms ≤ now) :
    (BreathEffect.update s now).curr_step = (s.curr_step + 1) % 4 ∧
    (BreathEffect.update s now).curr_step ≠ s.curr_step ∧
    (∀ n2 n3 n4, n2 < U128 → n3 < U128 → n4 < U128 →
      2 * s.step_duration_ms ≤ n2 → 2 * s.step_duration_ms ≤ n3 → 2 * s.step_duration_ms ≤ n4 →
      (BreathEffect.update (BreathEffect.update (BreathEffect.update
        (BreathEffect.update s now) n2) n3) n4).curr_step = s.curr_step) := by
  have h1 := breath_advances s now h4 hclk h2d
  refine ⟨h1, by rw [h1]; omega, ?_⟩
  intro n2 n3 n4 hc2 hc3 hc4 hd2 hd3 hd4
  have e1 : (BreathEffect.update s now).step_duration_ms = s.step_duration_ms :=
    breath_update_duration s now
  have h2 := breath_advances (BreathEffect.update s now) n2 (by rw [h1]; omega) hc2 (by rw [e1]; omega)
  have e2 : (BreathEffect.update (BreathEffect.update s now) n2).step_duration_ms
      = s.step_duration_ms := by rw [breath_update_duration, e1]
  have h3 := breath_advances (BreathEffect.update (BreathEffect.update s now) n2) n3
    (by rw [h2]; omega) hc3 (by rw [e2]; omega)
  have e3 : (BreathEffect.update (BreathEffect.update (BreathEffect.update s now) n2) n3).step_duration_ms
      = s.step_duration_ms := by rw [breath_update_duration, e2]
  have h5 := breath_advances (BreathEffect.update (BreathEffect.update (BreathEffect.update s now) n2) n3)
    n4 (by rw [h3]; omega) hc4 (by rw [e3]; omega)
  rw [h5, h3, h2, h1]
  omega

/-- Witness for C10: a fresh 100 ms Breath effect hit at clock values 200,
300, 400 and 500. -/
theorem C10_witness :
    (BreathEffect.update (BreathEffect.new 10 20 30 100 0) 200).curr_step =
      ((BreathEffect.new 10 20 30 100 0).curr_step + 1) % 4 ∧
    (BreathEffect.update (BreathEffect.new 10 20 30 100 0) 200).curr_step ≠
      (BreathEffect.new 10 20 30 100 0).curr_step ∧
    (BreathEffect.update (BreathEffect.update (BreathEffect.update (BreathEffect.update
        (BreathEffect.new 10 20 30 100 0) 200) 300) 400) 500).curr_step =
      (BreathEffect.new 10 20 30 100 0).curr_step :=
  have h := C10_breath_always_advances (BreathEffect.new 10 20 30 100 0) 200
    (by decide) (by decide) (by decide)
  ⟨h.1, h.2.1, h.2.2 300 400 500 (by decide) (by decide) (by decide)
    (by decide) (by decide) (by decide)⟩
